import Mathlib

/-!
Verification development for the mosquitto-example repository
(src/mqtt_pub.c and src/mqtt_sub.c).

The two C programs are shallowly embedded below:

* the GNU getopt_long call is modelled as a pure tokenizer
  (`getopt_stream`) that turns the argument vector (argv[1..]) into the
  stream of option events the C while-loop would receive: a pair of the
  returned option character and the optarg value (`none` models a NULL
  optarg);
* `context_init` of each tool is the fold of its switch statement over
  that stream (`pub_apply` / `sub_apply`), followed by the
  required-field check; calling `strdup`/`atoi` on a NULL optarg is
  undefined behavior in C and is modelled as the result `none`;
* the mosquitto library is a collaborator: its results are an oracle
  record, and each library call the program makes is recorded as an
  event (`MqttEv`), so runs of `mqtt_pub` / `mqtt_sub` / `main` are
  pure functions from the parsed context, the oracle (and, for the
  subscriber receive loop, a fuel bound) to the call trace and the
  final exit code.

All definitions are structurally recursive and executable.
-/

namespace MosquittoExample

/-- An option event produced by one getopt_long call: the returned
character (with the char ? standing for the unknown-option /
missing-argument error return) and the optarg value; `none` models a
NULL optarg. -/
abbrev GetoptEv := Char × Option String

/-- One entry of the C `struct option` long-option table.  `hasArg`
mirrors the second struct field; the source tables declare
`no_argument` (false) for every entry. -/
structure LongOpt where
  name : String
  hasArg : Bool
  val : Char
deriving DecidableEq, Repr

/-- The shared short-option string of both tools, "i:h:p:u:P:rt:m:H":
`some true` for a character that takes an argument, `some false` for a
flag, `none` for a character not in the option string. -/
def mqtt_short_arg (c : Char) : Option Bool :=
  if c = 'i' ∨ c = 'h' ∨ c = 'p' ∨ c = 'u' ∨ c = 'P' ∨ c = 't' ∨ c = 'm' then some true
  else if c = 'r' ∨ c = 'H' then some false
  else none

/-- The long-option table of mqtt_pub.c (every entry `no_argument`). -/
def pub_long_opts : List LongOpt :=
  [⟨"client-id", false, 'i'⟩, ⟨"host", false, 'h'⟩, ⟨"port", false, 'p'⟩,
   ⟨"user", false, 'u'⟩, ⟨"password", false, 'P'⟩, ⟨"retain", false, 'r'⟩,
   ⟨"topic", false, 't'⟩, ⟨"message", false, 'm'⟩, ⟨"help", false, 'H'⟩]

/-- The long-option table of mqtt_sub.c (every entry `no_argument`). -/
def sub_long_opts : List LongOpt :=
  [⟨"client-id", false, 'i'⟩, ⟨"host", false, 'h'⟩, ⟨"port", false, 'p'⟩,
   ⟨"user", false, 'u'⟩, ⟨"password", false, 'P'⟩, ⟨"retain", false, 'r'⟩,
   ⟨"topic", false, 't'⟩, ⟨"help", false, 'H'⟩]

/-- Boolean test that the first character list is a prefix of the
second (used for GNU long-option abbreviation matching). -/
def listPre : List Char → List Char → Bool
  | [], _ => true
  | _ :: _, [] => false
  | a :: as, b :: bs => a == b && listPre as bs

/-- Split the text after the leading "--" of a long option token at the
first =, giving the option name and the inline value when present. -/
def splitEq (cs : List Char) : List Char × Option (List Char) :=
  let nm := cs.takeWhile (fun ch => ch != '=')
  match cs.dropWhile (fun ch => ch != '=') with
  | [] => (nm, none)
  | _ :: rest => (nm, some rest)

/-- GNU long-option lookup: an exact name match wins, otherwise a
unique prefix match; anything else (no match or ambiguity) fails. -/
def longFind (longs : List LongOpt) (nm : List Char) : Option LongOpt :=
  match longs.find? (fun o => o.name.data == nm) with
  | some o => some o
  | none =>
    match longs.filter (fun o => listPre nm o.name.data) with
    | [o] => some o
    | _ => none

/-- Process one cluster of short options (the characters of a token
after its leading -): returns the option events produced and whether
the next argv element was consumed as an option argument. -/
def scan_cluster (chars : List Char) (next : Option String) : List GetoptEv × Bool :=
  match chars with
  | [] => ([], false)
  | c :: rest =>
    match mqtt_short_arg c with
    | none =>
      let (evs, used) := scan_cluster rest next
      (('?', none) :: evs, used)
    | some false =>
      let (evs, used) := scan_cluster rest next
      ((c, none) :: evs, used)
    | some true =>
      if rest.isEmpty then
        match next with
        | some v => ([(c, some v)], true)
        | none => ([('?', none)], false)
      else ([(c, some (String.mk rest))], false)

/-- The stream of option events getopt_long produces for an argument
vector (argv[1..]).  Non-option tokens are skipped (GNU permutation
moves them behind the options without changing the option results);
"--" ends option processing.  A long option whose table entry is
`no_argument` yields the error event when given an inline =value, and
yields a NULL optarg otherwise. -/
def getopt_stream (longs : List LongOpt) : List String → List GetoptEv
  | [] => []
  | t :: ts =>
    match t.data with
    | ['-', '-'] => []
    | '-' :: '-' :: nmv =>
      let (nm, val) := splitEq nmv
      match longFind longs nm with
      | none => ('?', none) :: getopt_stream longs ts
      | some o =>
        if o.hasArg then
          match val with
          | some v => (o.val, some (String.mk v)) :: getopt_stream longs ts
          | none =>
            match ts with
            | v :: ts2 => (o.val, some v) :: getopt_stream longs ts2
            | [] => [('?', none)]
        else
          match val with
          | some _ => ('?', none) :: getopt_stream longs ts
          | none => (o.val, none) :: getopt_stream longs ts
    | '-' :: c :: crest =>
      match scan_cluster (c :: crest) ts.head? with
      | (evs, true) =>
        evs ++ (match ts with
                | [] => []
                | _ :: ts2 => getopt_stream longs ts2)
      | (evs, false) => evs ++ getopt_stream longs ts
    | _ => getopt_stream longs ts

/-- The C `atoi`: skip leading whitespace, optional sign, then decimal
digits; no digits yields 0 (overflow is not modelled). -/
def atoiNat : List Char → Nat → Nat
  | [], acc => acc
  | c :: rest, acc =>
    if c.isDigit then atoiNat rest (acc * 10 + (c.toNat - 48)) else acc

/-- Whitespace characters skipped by atoi. -/
def isSpaceChar (c : Char) : Bool :=
  c == ' ' || c == '\t' || c == '\n' || c == '\x0b' || c == '\x0c' || c == '\r'

/-- Shallow embedding of the C standard library atoi. -/
def atoi (s : String) : Int :=
  match s.data.dropWhile isSpaceChar with
  | '-' :: rest => - (Int.ofNat (atoiNat rest 0))
  | '+' :: rest => Int.ofNat (atoiNat rest 0)
  | cs => Int.ofNat (atoiNat cs 0)

/-- The `enum command` of mqtt_pub.c. -/
inductive PubCommand | pub | showHelp
deriving DecidableEq, Repr

/-- The `enum command` of mqtt_sub.c. -/
inductive SubCommand | sub | showHelp
deriving DecidableEq, Repr

/-- The `struct context` of mqtt_pub.c, with the initial values set at
the top of context_init as defaults (EXIT_SUCCESS = 0). -/
structure PubContext where
  id : Option String := none
  user : Option String := none
  password : Option String := none
  host : String := "localhost"
  port : Int := 1883
  topic : Option String := none
  message : Option String := none
  retain : Bool := false
  cmd : PubCommand := .pub
  exit_code : Int := 0
deriving DecidableEq, Repr

/-- The `struct context` of mqtt_sub.c. -/
structure SubContext where
  id : Option String := none
  user : Option String := none
  password : Option String := none
  host : String := "localhost"
  port : Int := 1883
  topic : Option String := none
  retain : Bool := false
  cmd : SubCommand := .sub
  exit_code : Int := 0
deriving DecidableEq, Repr

/-- Result of one iteration of the option-processing switch: continue
the loop, leave the loop (done = true), or crash (strdup/atoi applied
to a NULL optarg, undefined behavior in the C source). -/
inductive StepRes (σ : Type)
  | cont (ctx : σ)
  | stop (ctx : σ)
  | crash
deriving DecidableEq, Repr

/-- One iteration of the switch in context_init of mqtt_pub.c. -/
def pub_step (ctx : PubContext) (e : GetoptEv) : StepRes PubContext :=
  match e with
  | ('i', some s) => .cont {ctx with id := some s}
  | ('i', none) => .crash
  | ('h', some s) => .cont {ctx with host := s}
  | ('h', none) => .crash
  | ('p', some s) => .cont {ctx with port := atoi s}
  | ('p', none) => .crash
  | ('u', some s) => .cont {ctx with user := some s}
  | ('u', none) => .crash
  | ('P', some s) => .cont {ctx with password := some s}
  | ('P', none) => .crash
  | ('r', _) => .cont {ctx with retain := true}
  | ('t', some s) => .cont {ctx with topic := some s}
  | ('t', none) => .crash
  | ('m', some s) => .cont {ctx with message := some s}
  | ('m', none) => .crash
  | ('H', _) => .stop {ctx with cmd := .showHelp}
  | (_, _) => .stop {ctx with exit_code := 1, cmd := .showHelp}

/-- One iteration of the switch in context_init of mqtt_sub.c.  The
switch has no case for the character m, so an -m option (still present
in the short-option string) falls through to the unknown-option
default. -/
def sub_step (ctx : SubContext) (e : GetoptEv) : StepRes SubContext :=
  match e with
  | ('i', some s) => .cont {ctx with id := some s}
  | ('i', none) => .crash
  | ('h', some s) => .cont {ctx with host := s}
  | ('h', none) => .crash
  | ('p', some s) => .cont {ctx with port := atoi s}
  | ('p', none) => .crash
  | ('u', some s) => .cont {ctx with user := some s}
  | ('u', none) => .crash
  | ('P', some s) => .cont {ctx with password := some s}
  | ('P', none) => .crash
  | ('r', _) => .cont {ctx with retain := true}
  | ('t', some s) => .cont {ctx with topic := some s}
  | ('t', none) => .crash
  | ('H', _) => .stop {ctx with cmd := .showHelp}
  | (_, _) => .stop {ctx with exit_code := 1, cmd := .showHelp}

/-- The while-loop of context_init in mqtt_pub.c over the option event
stream.  Returns the resulting context (`none` on a crash) together
with the list of events the loop actually consumed before it finished. -/
def pub_apply : PubContext → List GetoptEv → Option PubContext × List GetoptEv
  | ctx, [] => (some ctx, [])
  | ctx, e :: rest =>
    match pub_step ctx e with
    | .cont c2 =>
      let (r, evs) := pub_apply c2 rest
      (r, e :: evs)
    | .stop c2 => (some c2, [e])
    | .crash => (none, [e])

/-- The while-loop of context_init in mqtt_sub.c over the option event
stream. -/
def sub_apply : SubContext → List GetoptEv → Option SubContext × List GetoptEv
  | ctx, [] => (some ctx, [])
  | ctx, e :: rest =>
    match sub_step ctx e with
    | .cont c2 =>
      let (r, evs) := sub_apply c2 rest
      (r, e :: evs)
    | .stop c2 => (some c2, [e])
    | .crash => (none, [e])

/-- The required-field check at the end of context_init in
mqtt_pub.c. -/
def pub_post_check (ctx : PubContext) : PubContext :=
  if ctx.cmd = .pub ∧ (ctx.topic = none ∨ ctx.message = none) then
    {ctx with exit_code := 1, cmd := .showHelp}
  else ctx

/-- The required-field check at the end of context_init in
mqtt_sub.c. -/
def sub_post_check (ctx : SubContext) : SubContext :=
  if ctx.cmd = .sub ∧ ctx.topic = none then
    {ctx with exit_code := 1, cmd := .showHelp}
  else ctx

/-- context_init of mqtt_pub.c on an argument vector (argv[1..]):
the parsed configuration (`none` on undefined behavior) and the option
events consumed. -/
def pub_context_init (args : List String) : Option PubContext × List GetoptEv :=
  let (r, evs) := pub_apply {} (getopt_stream pub_long_opts args)
  (r.map pub_post_check, evs)

/-- context_init of mqtt_sub.c on an argument vector (argv[1..]). -/
def sub_context_init (args : List String) : Option SubContext × List GetoptEv :=
  let (r, evs) := sub_apply {} (getopt_stream sub_long_opts args)
  (r.map sub_post_check, evs)

/-! ### The session runners

Each call the programs make into the mosquitto library (and the usage
printing) is recorded as an event; the library results are an oracle. -/

/-- The MQTT_KEEPALIVE macro of both tools, 60 * 1000. -/
def MQTT_KEEPALIVE : Int := 60 * 1000

/-- The MQTT_QOS macro of both tools. -/
def MQTT_QOS : Int := 0

/-- The LOOP_INTERVAL macro of mqtt_sub.c (mosquitto_loop timeout in
milliseconds). -/
def LOOP_INTERVAL : Int := 1000

/-- The Linux errno value EINTR. -/
def EINTR : Int := 4

/-- One observable action of a run: a mosquitto library call with the
arguments the program passed, or printing the usage text. -/
inductive MqttEv
  | libInit
  | newClient (id : Option String) (cleanSession : Bool)
  | pwSet (user password : Option String)
  | callbackSet
  | connect (host : String) (port keepalive : Int)
  | publish (topic : Option String) (payloadlen : Int) (payload : String)
      (qos : Int) (retain : Bool)
  | subscribe (topic : Option String) (qos : Int)
  | loopStep (timeout maxPackets : Int)
  | unsubscribe (topic : Option String)
  | destroy
  | libCleanup
  | usage
deriving DecidableEq, Repr

/-- Results the mosquitto library returns to mqtt_pub (0 is
MOSQ_ERR_SUCCESS; `newOk` is whether mosquitto_new returns a non-NULL
handle). -/
structure PubOracle where
  libInit : Int := 0
  newOk : Bool := true
  pwSet : Int := 0
  connect : Int := 0
  publish : Int := 0

/-- Results the mosquitto library (and the post-loop errno state)
presents to mqtt_sub.  `loopRes i` is the result of the i-th
mosquitto_loop call and `shutdown i` the value of g_shutdown_requested
read by the i-th while-condition check. -/
structure SubOracle where
  libInit : Int := 0
  newOk : Bool := true
  pwSet : Int := 0
  connect : Int := 0
  subscribe : Int := 0
  loopRes : Nat → Int := fun _ => 0
  shutdown : Nat → Bool := fun _ => false
  errno : Int := 0
  unsub : Int := 0

/-- The mqtt_pub function: the sequence of library calls and the final
exit code, given the parsed context and the library results.  Returns
`none` when the source would call strlen on a NULL message. -/
def mqtt_pub (ctx : PubContext) (o : PubOracle) : Option (List MqttEv × Int) :=
  if o.libInit ≠ 0 then some ([.libInit], 1)
  else if o.newOk = false then
    some ([.libInit, .newClient ctx.id true, .libCleanup], 1)
  else if o.pwSet ≠ 0 then
    some ([.libInit, .newClient ctx.id true, .pwSet ctx.user ctx.password,
           .destroy, .libCleanup], 1)
  else if o.connect ≠ 0 then
    some ([.libInit, .newClient ctx.id true, .pwSet ctx.user ctx.password,
           .connect ctx.host ctx.port MQTT_KEEPALIVE, .destroy, .libCleanup], 1)
  else
    match ctx.message with
    | none => none
    | some msg =>
      some ([.libInit, .newClient ctx.id true, .pwSet ctx.user ctx.password,
             .connect ctx.host ctx.port MQTT_KEEPALIVE,
             .publish ctx.topic (Int.ofNat msg.length) msg MQTT_QOS ctx.retain,
             .destroy, .libCleanup],
            if o.publish ≠ 0 then 1 else ctx.exit_code)

/-- The receive loop of mqtt_sub.c:
while rc == MOSQ_ERR_SUCCESS and the shutdown flag is unset, call
mosquitto_loop again.  Runs at most `fuel` iterations; returns the
final rc and the number of mosquitto_loop calls made, or `none` when
the fuel is exhausted with the loop condition still true. -/
def recv_loop (sched : Nat → Bool) (res : Nat → Int) :
    Nat → Int → Nat → Option (Int × Nat)
  | 0, rc, i => if rc = 0 ∧ sched i = false then none else some (rc, i)
  | fuel + 1, rc, i =>
    if rc = 0 ∧ sched i = false then recv_loop sched res fuel (res i) (i + 1)
    else some (rc, i)

/-- The mqtt_sub function: the sequence of library calls and the final
exit code.  After the loop the source checks
`(MOSQ_ERR_SUCCESS == rc) && (errno != EINTR)` (as written, with the
comparison on the success value) and only then sets the failure exit
code; the unsubscribe result only produces a warning. -/
def mqtt_sub (ctx : SubContext) (o : SubOracle) (fuel : Nat) :
    Option (List MqttEv × Int) :=
  if o.libInit ≠ 0 then some ([.libInit], 1)
  else if o.newOk = false then
    some ([.libInit, .newClient ctx.id true, .libCleanup], 1)
  else if o.pwSet ≠ 0 then
    some ([.libInit, .newClient ctx.id true, .pwSet ctx.user ctx.password,
           .destroy, .libCleanup], 1)
  else if o.connect ≠ 0 then
    some ([.libInit, .newClient ctx.id true, .pwSet ctx.user ctx.password,
           .callbackSet, .connect ctx.host ctx.port MQTT_KEEPALIVE,
           .destroy, .libCleanup], 1)
  else if o.subscribe ≠ 0 then
    some ([.libInit, .newClient ctx.id true, .pwSet ctx.user ctx.password,
           .callbackSet, .connect ctx.host ctx.port MQTT_KEEPALIVE,
           .subscribe ctx.topic MQTT_QOS, .destroy, .libCleanup], 1)
  else
    match recv_loop o.shutdown o.loopRes fuel 0 0 with
    | none => none
    | some (rc, n) =>
      some ([.libInit, .newClient ctx.id true, .pwSet ctx.user ctx.password,
             .callbackSet, .connect ctx.host ctx.port MQTT_KEEPALIVE,
             .subscribe ctx.topic MQTT_QOS]
            ++ List.replicate n (.loopStep LOOP_INTERVAL 1)
            ++ [.unsubscribe ctx.topic, .destroy, .libCleanup],
            if rc = 0 ∧ o.errno ≠ EINTR then 1 else ctx.exit_code)

/-- main of mqtt_pub.c: parse, dispatch on the command, clean up and
return the exit code. -/
def pub_main (args : List String) (o : PubOracle) : Option (List MqttEv × Int) :=
  match (pub_context_init args).1 with
  | none => none
  | some ctx =>
    match ctx.cmd with
    | .pub => mqtt_pub ctx o
    | .showHelp => some ([.usage], ctx.exit_code)

/-- main of mqtt_sub.c. -/
def sub_main (args : List String) (o : SubOracle) (fuel : Nat) :
    Option (List MqttEv × Int) :=
  match (sub_context_init args).1 with
  | none => none
  | some ctx =>
    match ctx.cmd with
    | .sub => mqtt_sub ctx o fuel
    | .showHelp => some ([.usage], ctx.exit_code)

/-! ### The subscriber message callback -/

/-- The `struct mosquitto_message` fields mqtt_on_message reads.  The
payload is a byte array of length payloadlen. -/
structure MosqMessage where
  mid : Int
  topic : String
  payload : List Nat
  payloadlen : Int
  retain : Bool

/-- The byte sequence of an ASCII string literal. -/
def ascii (s : String) : List Nat := s.data.map Char.toNat

/-- The bytes written by printf for a "%.*s" conversion with the given
precision: at most that many bytes of the array, stopping at the first
NUL byte. -/
def printf_prec (prec : Int) (bytes : List Nat) : List Nat :=
  (bytes.take prec.toNat).takeWhile (fun b => b != 0)

/-- The block printed by mqtt_on_message for one message, field by
field: the message id line, the topic line, the retained line, and the
bytes of the payload line (the payload when payloadlen is positive,
the marker otherwise). -/
structure MsgBlock where
  midLine : Int
  topicLine : String
  retainedLine : String
  payloadLine : List Nat
deriving DecidableEq, Repr

/-- The mqtt_on_message callback of mqtt_sub.c. -/
def mqtt_on_message (m : MosqMessage) : MsgBlock :=
  { midLine := m.mid
  , topicLine := m.topic
  , retainedLine := if m.retain then "yes" else "no"
  , payloadLine :=
      if 0 < m.payloadlen then printf_prec m.payloadlen m.payload
      else ascii "<empty>" }

/-! ### Helper observations on traces -/

/-- Whether an event is a mosquitto_publish call. -/
def isPublishEv : MqttEv → Bool
  | .publish _ _ _ _ _ => true
  | _ => false

/-- Whether an event is a mosquitto_unsubscribe call. -/
def isUnsubEv : MqttEv → Bool
  | .unsubscribe _ => true
  | _ => false

/-- The keepalive arguments of the mosquitto_connect calls in a trace. -/
def connect_keepalives (evs : List MqttEv) : List Int :=
  evs.filterMap fun e => match e with
    | .connect _ _ k => some k
    | _ => none

/-- The number of mosquitto_unsubscribe calls in a trace. -/
def unsub_count (evs : List MqttEv) : Nat := (evs.filter isUnsubEv).length

/-! ### Claims -/

/-- C1, counterexample: for the publisher argument vector ["-H"], the
parse completes with topic and message both absent, yet the exit code
is 0 (success), not failure, because the explicit help request
terminates parsing before the required-field check applies.  This
refutes the claim that absent required fields force a failure exit
regardless of the other flags supplied. -/
theorem C1_counterexample :
    pub_context_init ["-H"] =
      (some ⟨none, none, none, "localhost", 1883, none, none, false, .showHelp, 0⟩,
       [('H', none)]) ∧
    ((0 : Int) = 1 → False) := by
  constructor
  · decide
  · intro h
    exact absurd h (by decide)

/-- C2: the claim states that the connection step passes a keep-alive
of exactly 60 seconds.  The code instead passes MQTT_KEEPALIVE =
60 * 1000 = 60000 as the keepalive argument of mosquitto_connect (whose
unit is seconds), in both tools; 60000 is not 60.  This theorem
evaluates both programs at the failing inputs and exhibits the value
actually passed. -/
theorem C2_keepalive_value :
    MQTT_KEEPALIVE = 60 * 1000 ∧
    (MQTT_KEEPALIVE = 60 → False) ∧
    ((pub_main ["-t", "test", "-m", "hello"] {}).map fun r => connect_keepalives r.1)
      = some [60000] ∧
    ((sub_main ["-t", "test"] ⟨0, true, 0, 0, 0, fun _ => 0, fun _ => true, 0, 0⟩ 1).map
        fun r => connect_keepalives r.1)
      = some [60000] := by
  refine ⟨by decide, fun h => absurd h (by decide), by decide, by decide⟩

/-- C3: the claim states that a failing event-processing iteration
sets the failure exit status, and that a pure shutdown exit with all
iterations successful leaves the success status.  The code does the
opposite: its post-loop check is
`(MOSQ_ERR_SUCCESS == rc) && (errno != EINTR)`.  First conjunct: with
the first mosquitto_loop call failing (result 7) and no shutdown, the
subscriber exits with status 0.  Second conjunct: with a shutdown
observed before the first iteration, every (zero) loop call successful
and errno 0, it exits with status 1. -/
theorem C3_loop_error_ignored :
    ((sub_main ["-t", "test"] ⟨0, true, 0, 0, 0, fun _ => 7, fun _ => false, 0, 0⟩ 5).map
      Prod.snd = some 0) ∧
    ((sub_main ["-t", "test"] ⟨0, true, 0, 0, 0, fun _ => 0, fun _ => true, 0, 0⟩ 5).map
      Prod.snd = some 1) := by
  exact ⟨by decide, by decide⟩

/-- C4: the claim states that long spellings of value-taking flags are
accepted with a value and behave like the short spellings.  Because
the long-option tables declare every entry no_argument, the code
rejects "--topic=test" as an unknown option (configuration: show-usage
and failure, topic not recorded), and on "--topic test" it calls
strdup(NULL) (undefined behavior, modelled as `none`); the short
spelling records the topic.  The subscriber behaves the same way. -/
theorem C4_long_options_broken :
    (pub_context_init ["--topic=test", "-m", "hello"]).1 =
      some ⟨none, none, none, "localhost", 1883, none, none, false, .showHelp, 1⟩ ∧
    (pub_context_init ["--topic", "test", "-m", "hello"]).1 = none ∧
    (pub_context_init ["-t", "test", "-m", "hello"]).1 =
      some ⟨none, none, none, "localhost", 1883, some "test", some "hello", false, .pub, 0⟩ ∧
    (sub_context_init ["--topic=test"]).1 =
      some ⟨none, none, none, "localhost", 1883, none, false, .showHelp, 1⟩ := by
  refine ⟨by decide, by decide, by decide, by decide⟩

/-- C6: on the argument vector ["-t", "test", "-m", "hello"] with every
library call succeeding, the publisher performs exactly one publish
call, with topic "test", payload "hello", payload length 5, QoS 0 and
retain false, and exits with status 0. -/
theorem C6_publish_once :
    (pub_main ["-t", "test", "-m", "hello"] {}).map
        (fun r => (r.1.filter isPublishEv, r.2)) =
      some ([MqttEv.publish (some "test") 5 "hello" 0 false], 0) := by
  decide

/-- C5, counterexample: the flags -t (once, with value "x") and -H
(once) give different configurations in the two orders: with
["-t", "x", "-H"] the topic is recorded as "x", with ["-H", "-t", "x"]
it stays unset, because -H terminates parsing.  This refutes
order-independence for distinct flags occurring at most once. -/
theorem C5_counterexample :
    (pub_context_init ["-t", "x", "-H"]).1 ≠ (pub_context_init ["-H", "-t", "x"]).1 := by
  decide

/-- C8, counterexample: a delivered message with payload bytes
[104, 0, 105] and payloadlen 3 is printed as the single byte 104, not
as its first 3 bytes: the printf "%.*s" conversion stops at the NUL
byte.  This refutes the claim that a payload of positive length n is
rendered as its first n bytes. -/
theorem C8_counterexample :
    (mqtt_on_message ⟨1, "t", [104, 0, 105], 3, false⟩).payloadLine = [104] ∧
    ([104] = ([104, 0, 105] : List Nat) → False) := by
  exact ⟨by decide, fun h => absurd h (by decide)⟩

theorem pub_step_cont_fields {ctx c2 : PubContext} {e : GetoptEv}
    (h : pub_step ctx e = .cont c2) :
    c2.cmd = ctx.cmd ∧ c2.exit_code = ctx.exit_code ∧
    (e.1 ≠ 'h' → c2.host = ctx.host) ∧ (e.1 ≠ 'p' → c2.port = ctx.port) := by
  unfold pub_step at h
  split at h <;>
    first
    | exact StepRes.noConfusion h
    | (injection h with h; subst h; simp_all)

theorem pub_step_stop_cases {ctx c2 : PubContext} {e : GetoptEv}
    (h : pub_step ctx e = .stop c2) :
    (e.1 = 'H' ∧ c2 = {ctx with cmd := .showHelp}) ∨
      c2 = {ctx with exit_code := 1, cmd := .showHelp} := by
  unfold pub_step at h
  split at h <;>
    first
    | exact StepRes.noConfusion h
    | (injection h with h; subst h; simp_all)

theorem pub_step_qmark (ctx : PubContext) (a : Option String) :
    pub_step ctx ('?', a) = .stop {ctx with exit_code := 1, cmd := .showHelp} := rfl

theorem pub_step_H (ctx : PubContext) (a : Option String) :
    pub_step ctx ('H', a) = .stop {ctx with cmd := .showHelp} := rfl

theorem pub_apply_host_port (evs : List GetoptEv) :
    ∀ (ctx : PubContext) (r : Option PubContext) (cons : List GetoptEv),
      pub_apply ctx evs = (r, cons) →
      (∀ e ∈ cons, e.1 ≠ 'h' ∧ e.1 ≠ 'p') →
      ∀ c2, r = some c2 → c2.host = ctx.host ∧ c2.port = ctx.port := by
  induction evs with
  | nil =>
    intro ctx r cons h hno c2 hr
    injection h with h1 h2
    subst h1
    injection hr with hr
    subst hr
    exact ⟨rfl, rfl⟩
  | cons e rest ih =>
    intro ctx r cons h hno c2 hr
    rw [pub_apply] at h
    cases hstep : pub_step ctx e with
    | cont cx =>
      simp only [hstep] at h
      rcases hq : pub_apply cx rest with ⟨r1, evs1⟩
      rw [hq] at h
      injection h with h1 h2
      subst h1
      subst h2
      have hne := hno e (by simp)
      have hfields := pub_step_cont_fields hstep
      have hrec := ih cx r1 evs1 hq (fun x hx => hno x (by simp [hx])) c2 hr
      exact ⟨hrec.1.trans (hfields.2.2.1 hne.1), hrec.2.trans (hfields.2.2.2 hne.2)⟩
    | stop cx =>
      simp only [hstep] at h
      injection h with h1 h2
      subst h1
      injection hr with hr
      subst hr
      rcases pub_step_stop_cases hstep with ⟨_, hc⟩ | hc <;> subst hc <;> exact ⟨rfl, rfl⟩
    | crash =>
      simp only [hstep] at h
      injection h with h1 h2
      subst h1
      exact Option.noConfusion hr

theorem pub_apply_no_H (evs : List GetoptEv) :
    ∀ (ctx c2 : PubContext) (cons : List GetoptEv),
      pub_apply ctx evs = (some c2, cons) →
      (∀ e ∈ cons, e.1 ≠ 'H') →
      (c2.cmd = ctx.cmd ∧ c2.exit_code = ctx.exit_code) ∨
        (c2.cmd = .showHelp ∧ c2.exit_code = 1) := by
  induction evs with
  | nil =>
    intro ctx c2 cons h hno
    injection h with h1 h2
    injection h1 with h1
    subst h1
    exact Or.inl ⟨rfl, rfl⟩
  | cons e rest ih =>
    intro ctx c2 cons h hno
    rw [pub_apply] at h
    cases hstep : pub_step ctx e with
    | cont cx =>
      simp only [hstep] at h
      rcases hq : pub_apply cx rest with ⟨r1, evs1⟩
      rw [hq] at h
      injection h with h1 h2
      subst h2
      dsimp only at h1
      rw [h1] at hq
      have hfields := pub_step_cont_fields hstep
      rcases ih cx c2 evs1 hq (fun x hx => hno x (by simp [hx])) with hcase | hcase
      · exact Or.inl ⟨hcase.1.trans hfields.1, hcase.2.trans hfields.2.1⟩
      · exact Or.inr hcase
    | stop cx =>
      simp only [hstep] at h
      injection h with h1 h2
      subst h2
      injection h1 with h1
      subst h1
      rcases pub_step_stop_cases hstep with ⟨hH, _⟩ | hc
      · exact absurd hH (hno e (by simp))
      · subst hc
        exact Or.inr ⟨rfl, rfl⟩
    | crash =>
      simp only [hstep] at h
      injection h with h1 h2
      exact Option.noConfusion h1

theorem pub_apply_qmark (evs : List GetoptEv) :
    ∀ (ctx : PubContext) (r : Option PubContext) (cons : List GetoptEv),
      pub_apply ctx evs = (r, cons) →
      ('?', (none : Option String)) ∈ cons →
      ∃ c2, r = some c2 ∧ c2.cmd = .showHelp ∧ c2.exit_code = 1 := by
  induction evs with
  | nil =>
    intro ctx r cons h hmem
    injection h with h1 h2
    subst h2
    simp at hmem
  | cons e rest ih =>
    intro ctx r cons h hmem
    rw [pub_apply] at h
    cases hstep : pub_step ctx e with
    | cont cx =>
      simp only [hstep] at h
      rcases hq : pub_apply cx rest with ⟨r1, evs1⟩
      rw [hq] at h
      injection h with h1 h2
      subst h1
      subst h2
      rcases List.mem_cons.mp hmem with he | he
      · rw [← he, pub_step_qmark] at hstep
        exact StepRes.noConfusion hstep
      · exact ih cx r1 evs1 hq he
    | stop cx =>
      simp only [hstep] at h
      injection h with h1 h2
      subst h1
      subst h2
      have he : e = ('?', none) := by
        rcases List.mem_cons.mp hmem with he | he
        · exact he.symm
        · simp at he
      rw [he, pub_step_qmark] at hstep
      injection hstep with hc
      exact ⟨cx, rfl, by rw [← hc], by rw [← hc]⟩
    | crash =>
      simp only [hstep] at h
      injection h with h1 h2
      subst h2
      have he : e = ('?', none) := by
        rcases List.mem_cons.mp hmem with he | he
        · exact he.symm
        · simp at he
      rw [he, pub_step_qmark] at hstep
      exact StepRes.noConfusion hstep

theorem pub_apply_help (evs : List GetoptEv) :
    ∀ (ctx : PubContext) (r : Option PubContext) (cons : List GetoptEv),
      pub_apply ctx evs = (r, cons) →
      ('H', (none : Option String)) ∈ cons →
      ∃ c2, r = some c2 ∧ c2.cmd = .showHelp ∧ c2.exit_code = ctx.exit_code := by
  induction evs with
  | nil =>
    intro ctx r cons h hmem
    injection h with h1 h2
    subst h2
    simp at hmem
  | cons e rest ih =>
    intro ctx r cons h hmem
    rw [pub_apply] at h
    cases hstep : pub_step ctx e with
    | cont cx =>
      simp only [hstep] at h
      rcases hq : pub_apply cx rest with ⟨r1, evs1⟩
      rw [hq] at h
      injection h with h1 h2
      subst h1
      subst h2
      rcases List.mem_cons.mp hmem with he | he
      · rw [← he, pub_step_H] at hstep
        exact StepRes.noConfusion hstep
      · rcases ih cx r1 evs1 hq he with ⟨c2, hr, hcmd, hex⟩
        exact ⟨c2, hr, hcmd, hex.trans (pub_step_cont_fields hstep).2.1⟩
    | stop cx =>
      simp only [hstep] at h
      injection h with h1 h2
      subst h1
      subst h2
      have he : e = ('H', none) := by
        rcases List.mem_cons.mp hmem with he | he
        · exact he.symm
        · simp at he
      rw [he, pub_step_H] at hstep
      injection hstep with hc
      exact ⟨cx, rfl, by rw [← hc], by rw [← hc]⟩
    | crash =>
      simp only [hstep] at h
      injection h with h1 h2
      subst h2
      have he : e = ('H', none) := by
        rcases List.mem_cons.mp hmem with he | he
        · exact he.symm
        · simp at he
      rw [he, pub_step_H] at hstep
      exact StepRes.noConfusion hstep

theorem sub_step_cont_fields {ctx c2 : SubContext} {e : GetoptEv}
    (h : sub_step ctx e = .cont c2) :
    c2.cmd = ctx.cmd ∧ c2.exit_code = ctx.exit_code ∧
    (e.1 ≠ 'h' → c2.host = ctx.host) ∧ (e.1 ≠ 'p' → c2.port = ctx.port) := by
  unfold sub_step at h
  split at h <;>
    first
    | exact StepRes.noConfusion h
    | (injection h with h; subst h; simp_all)

theorem sub_step_stop_cases {ctx c2 : SubContext} {e : GetoptEv}
    (h : sub_step ctx e = .stop c2) :
    (e.1 = 'H' ∧ c2 = {ctx with cmd := .showHelp}) ∨
      c2 = {ctx with exit_code := 1, cmd := .showHelp} := by
  unfold sub_step at h
  split at h <;>
    first
    | exact StepRes.noConfusion h
    | (injection h with h; subst h; simp_all)

theorem sub_step_qmark (ctx : SubContext) (a : Option String) :
    sub_step ctx ('?', a) = .stop {ctx with exit_code := 1, cmd := .showHelp} := rfl

theorem sub_step_H (ctx : SubContext) (a : Option String) :
    sub_step ctx ('H', a) = .stop {ctx with cmd := .showHelp} := rfl

theorem sub_apply_host_port (evs : List GetoptEv) :
    ∀ (ctx : SubContext) (r : Option SubContext) (cons : List GetoptEv),
      sub_apply ctx evs = (r, cons) →
      (∀ e ∈ cons, e.1 ≠ 'h' ∧ e.1 ≠ 'p') →
      ∀ c2, r = some c2 → c2.host = ctx.host ∧ c2.port = ctx.port := by
  induction evs with
  | nil =>
    intro ctx r cons h hno c2 hr
    injection h with h1 h2
    subst h1
    injection hr with hr
    subst hr
    exact ⟨rfl, rfl⟩
  | cons e rest ih =>
    intro ctx r cons h hno c2 hr
    rw [sub_apply] at h
    cases hstep : sub_step ctx e with
    | cont cx =>
      simp only [hstep] at h
      rcases hq : sub_apply cx rest with ⟨r1, evs1⟩
      rw [hq] at h
      injection h with h1 h2
      subst h1
      subst h2
      have hne := hno e (by simp)
      have hfields := sub_step_cont_fields hstep
      have hrec := ih cx r1 evs1 hq (fun x hx => hno x (by simp [hx])) c2 hr
      exact ⟨hrec.1.trans (hfields.2.2.1 hne.1), hrec.2.trans (hfields.2.2.2 hne.2)⟩
    | stop cx =>
      simp only [hstep] at h
      injection h with h1 h2
      subst h1
      injection hr with hr
      subst hr
      rcases sub_step_stop_cases hstep with ⟨_, hc⟩ | hc <;> subst hc <;> exact ⟨rfl, rfl⟩
    | crash =>
      simp only [hstep] at h
      injection h with h1 h2
      subst h1
      exact Option.noConfusion hr

theorem sub_apply_no_H (evs : List GetoptEv) :
    ∀ (ctx c2 : SubContext) (cons : List GetoptEv),
      sub_apply ctx evs = (some c2, cons) →
      (∀ e ∈ cons, e.1 ≠ 'H') →
      (c2.cmd = ctx.cmd ∧ c2.exit_code = ctx.exit_code) ∨
        (c2.cmd = .showHelp ∧ c2.exit_code = 1) := by
  induction evs with
  | nil =>
    intro ctx c2 cons h hno
    injection h with h1 h2
    injection h1 with h1
    subst h1
    exact Or.inl ⟨rfl, rfl⟩
  | cons e rest ih =>
    intro ctx c2 cons h hno
    rw [sub_apply] at h
    cases hstep : sub_step ctx e with
    | cont cx =>
      simp only [hstep] at h
      rcases hq : sub_apply cx rest with ⟨r1, evs1⟩
      rw [hq] at h
      injection h with h1 h2
      subst h2
      dsimp only at h1
      rw [h1] at hq
      have hfields := sub_step_cont_fields hstep
      rcases ih cx c2 evs1 hq (fun x hx => hno x (by simp [hx])) with hcase | hcase
      · exact Or.inl ⟨hcase.1.trans hfields.1, hcase.2.trans hfields.2.1⟩
      · exact Or.inr hcase
    | stop cx =>
      simp only [hstep] at h
      injection h with h1 h2
      subst h2
      injection h1 with h1
      subst h1
      rcases sub_step_stop_cases hstep with ⟨hH, _⟩ | hc
      · exact absurd hH (hno e (by simp))
      · subst hc
        exact Or.inr ⟨rfl, rfl⟩
    | crash =>
      simp only [hstep] at h
      injection h with h1 h2
      exact Option.noConfusion h1

theorem sub_apply_qmark (evs : List GetoptEv) :
    ∀ (ctx : SubContext) (r : Option SubContext) (cons : List GetoptEv),
      sub_apply ctx evs = (r, cons) →
      ('?', (none : Option String)) ∈ cons →
      ∃ c2, r = some c2 ∧ c2.cmd = .showHelp ∧ c2.exit_code = 1 := by
  induction evs with
  | nil =>
    intro ctx r cons h hmem
    injection h with h1 h2
    subst h2
    simp at hmem
  | cons e rest ih =>
    intro ctx r cons h hmem
    rw [sub_apply] at h
    cases hstep : sub_step ctx e with
    | cont cx =>
      simp only [hstep] at h
      rcases hq : sub_apply cx rest with ⟨r1, evs1⟩
      rw [hq] at h
      injection h with h1 h2
      subst h1
      subst h2
      rcases List.mem_cons.mp hmem with he | he
      · rw [← he, sub_step_qmark] at hstep
        exact StepRes.noConfusion hstep
      · exact ih cx r1 evs1 hq he
    | stop cx =>
      simp only [hstep] at h
      injection h with h1 h2
      subst h1
      subst h2
      have he : e = ('?', none) := by
        rcases List.mem_cons.mp hmem with he | he
        · exact he.symm
        · simp at he
      rw [he, sub_step_qmark] at hstep
      injection hstep with hc
      exact ⟨cx, rfl, by rw [← hc], by rw [← hc]⟩
    | crash =>
      simp only [hstep] at h
      injection h with h1 h2
      subst h2
      have he : e = ('?', none) := by
        rcases List.mem_cons.mp hmem with he | he
        · exact he.symm
        · simp at he
      rw [he, sub_step_qmark] at hstep
      exact StepRes.noConfusion hstep

theorem sub_apply_help (evs : List GetoptEv) :
    ∀ (ctx : SubContext) (r : Option SubContext) (cons : List GetoptEv),
      sub_apply ctx evs = (r, cons) →
      ('H', (none : Option String)) ∈ cons →
      ∃ c2, r = some c2 ∧ c2.cmd = .showHelp ∧ c2.exit_code = ctx.exit_code := by
  induction evs with
  | nil =>
    intro ctx r cons h hmem
    injection h with h1 h2
    subst h2
    simp at hmem
  | cons e rest ih =>
    intro ctx r cons h hmem
    rw [sub_apply] at h
    cases hstep : sub_step ctx e with
    | cont cx =>
      simp only [hstep] at h
      rcases hq : sub_apply cx rest with ⟨r1, evs1⟩
      rw [hq] at h
      injection h with h1 h2
      subst h1
      subst h2
      rcases List.mem_cons.mp hmem with he | he
      · rw [← he, sub_step_H] at hstep
        exact StepRes.noConfusion hstep
      · rcases ih cx r1 evs1 hq he with ⟨c2, hr, hcmd, hex⟩
        exact ⟨c2, hr, hcmd, hex.trans (sub_step_cont_fields hstep).2.1⟩
    | stop cx =>
      simp only [hstep] at h
      injection h with h1 h2
      subst h1
      subst h2
      have he : e = ('H', none) := by
        rcases List.mem_cons.mp hmem with he | he
        · exact he.symm
        · simp at he
      rw [he, sub_step_H] at hstep
      injection hstep with hc
      exact ⟨cx, rfl, by rw [← hc], by rw [← hc]⟩
    | crash =>
      simp only [hstep] at h
      injection h with h1 h2
      subst h2
      have he : e = ('H', none) := by
        rcases List.mem_cons.mp hmem with he | he
        · exact he.symm
        · simp at he
      rw [he, sub_step_H] at hstep
      exact StepRes.noConfusion hstep

theorem pub_post_check_fields (c : PubContext) :
    (pub_post_check c).host = c.host ∧ (pub_post_check c).port = c.port ∧
    (pub_post_check c).topic = c.topic ∧ (pub_post_check c).message = c.message := by
  unfold pub_post_check
  split <;> simp

theorem sub_post_check_fields (c : SubContext) :
    (sub_post_check c).host = c.host ∧ (sub_post_check c).port = c.port ∧
    (sub_post_check c).topic = c.topic := by
  unfold sub_post_check
  split <;> simp

theorem pub_post_check_pub {c : PubContext} (hc : c.cmd = .pub)
    (hm : c.topic = none ∨ c.message = none) :
    (pub_post_check c).cmd = .showHelp ∧ (pub_post_check c).exit_code = 1 := by
  unfold pub_post_check
  rw [if_pos ⟨hc, hm⟩]
  exact ⟨rfl, rfl⟩

theorem sub_post_check_sub {c : SubContext} (hc : c.cmd = .sub) (hm : c.topic = none) :
    (sub_post_check c).cmd = .showHelp ∧ (sub_post_check c).exit_code = 1 := by
  unfold sub_post_check
  rw [if_pos ⟨hc, hm⟩]
  exact ⟨rfl, rfl⟩

theorem pub_post_check_help {c : PubContext} (hc : c.cmd = .showHelp) :
    pub_post_check c = c := by
  unfold pub_post_check
  rw [if_neg]
  rintro ⟨h1, _⟩
  rw [hc] at h1
  exact PubCommand.noConfusion h1

theorem sub_post_check_help {c : SubContext} (hc : c.cmd = .showHelp) :
    sub_post_check c = c := by
  unfold sub_post_check
  rw [if_neg]
  rintro ⟨h1, _⟩
  rw [hc] at h1
  exact SubCommand.noConfusion h1

theorem pub_context_init_def (args : List String) :
    pub_context_init args =
      ((pub_apply {} (getopt_stream pub_long_opts args)).1.map pub_post_check,
       (pub_apply {} (getopt_stream pub_long_opts args)).2) := rfl

theorem sub_context_init_def (args : List String) :
    sub_context_init args =
      ((sub_apply {} (getopt_stream sub_long_opts args)).1.map sub_post_check,
       (sub_apply {} (getopt_stream sub_long_opts args)).2) := rfl

/-- C9: in both tools, whenever parsing completes and none of the
consumed option events is the host or the port option, the parsed
configuration has host "localhost" and port 1883. -/
theorem C9_default_host_port :
    (∀ (args : List String) (ctx : PubContext) (evs : List GetoptEv),
       pub_context_init args = (some ctx, evs) →
       (∀ e ∈ evs, e.1 ≠ 'h' ∧ e.1 ≠ 'p') →
       ctx.host = "localhost" ∧ ctx.port = 1883)
  ∧ (∀ (args : List String) (ctx : SubContext) (evs : List GetoptEv),
       sub_context_init args = (some ctx, evs) →
       (∀ e ∈ evs, e.1 ≠ 'h' ∧ e.1 ≠ 'p') →
       ctx.host = "localhost" ∧ ctx.port = 1883) := by
  constructor
  · intro args ctx evs h hno
    rw [pub_context_init_def] at h
    rcases hq : pub_apply {} (getopt_stream pub_long_opts args) with ⟨r1, evs1⟩
    rw [hq] at h
    injection h with h1 h2
    dsimp only at h1 h2
    subst h2
    rcases Option.map_eq_some'.mp h1 with ⟨c1, hr1, hpost⟩
    have hbase := pub_apply_host_port _ _ _ _ hq hno c1 hr1
    have hf := pub_post_check_fields c1
    subst hpost
    exact ⟨hf.1.trans hbase.1, hf.2.1.trans hbase.2⟩
  · intro args ctx evs h hno
    rw [sub_context_init_def] at h
    rcases hq : sub_apply {} (getopt_stream sub_long_opts args) with ⟨r1, evs1⟩
    rw [hq] at h
    injection h with h1 h2
    dsimp only at h1 h2
    subst h2
    rcases Option.map_eq_some'.mp h1 with ⟨c1, hr1, hpost⟩
    have hbase := sub_apply_host_port _ _ _ _ hq hno c1 hr1
    have hf := sub_post_check_fields c1
    subst hpost
    exact ⟨hf.1.trans hbase.1, hf.2.1.trans hbase.2⟩

/-- C9, witness: the theorem applied to the publisher vector [-t, x]
and to the empty subscriber vector. -/
theorem C9_default_host_port_witness :
    ((⟨none, none, none, "localhost", 1883, some "x", none, false, .showHelp, 1⟩ :
        PubContext).host = "localhost" ∧
     (⟨none, none, none, "localhost", 1883, some "x", none, false, .showHelp, 1⟩ :
        PubContext).port = 1883) ∧
    ((⟨none, none, none, "localhost", 1883, none, false, .showHelp, 1⟩ :
        SubContext).host = "localhost" ∧
     (⟨none, none, none, "localhost", 1883, none, false, .showHelp, 1⟩ :
        SubContext).port = 1883) :=
  ⟨C9_default_host_port.1 ["-t", "x"]
      ⟨none, none, none, "localhost", 1883, some "x", none, false, .showHelp, 1⟩
      [('t', some "x")] (by decide) (by decide),
   C9_default_host_port.2 []
      ⟨none, none, none, "localhost", 1883, none, false, .showHelp, 1⟩
      [] (by decide) (by decide)⟩

/-- C1, amended: in both tools, when parsing completes, an unknown
flag forces the show-usage selector and the failure exit code
unconditionally, and absent required fields (topic, and message in the
publisher) force them provided no explicit help request terminated
parsing (an -H ends parsing with show-usage and a success exit even
though required fields are absent; see the counterexample). -/
theorem C1_usage_on_error :
    (∀ (args : List String) (ctx : PubContext) (evs : List GetoptEv),
       pub_context_init args = (some ctx, evs) →
       (('?', (none : Option String)) ∈ evs ∨
         ((∀ e ∈ evs, e.1 ≠ 'H') ∧ (ctx.topic = none ∨ ctx.message = none))) →
       ctx.cmd = .showHelp ∧ ctx.exit_code = 1)
  ∧ (∀ (args : List String) (ctx : SubContext) (evs : List GetoptEv),
       sub_context_init args = (some ctx, evs) →
       (('?', (none : Option String)) ∈ evs ∨
         ((∀ e ∈ evs, e.1 ≠ 'H') ∧ ctx.topic = none)) →
       ctx.cmd = .showHelp ∧ ctx.exit_code = 1) := by
  constructor
  · intro args ctx evs h hcase
    rw [pub_context_init_def] at h
    rcases hq : pub_apply {} (getopt_stream pub_long_opts args) with ⟨r1, evs1⟩
    rw [hq] at h
    injection h with h1 h2
    dsimp only at h1 h2
    subst h2
    rcases Option.map_eq_some'.mp h1 with ⟨c1, hr1, hpost⟩
    rcases hcase with hmem | ⟨hnoH, hmiss⟩
    · rcases pub_apply_qmark _ _ _ _ hq hmem with ⟨c2, hr2, hcmd, hex⟩
      rw [hr1] at hr2
      injection hr2 with hr2
      subst hr2
      rw [← hpost, pub_post_check_help hcmd]
      exact ⟨hcmd, hex⟩
    · subst hr1
      rcases pub_apply_no_H _ _ _ _ hq hnoH with ⟨hcmd, hex⟩ | ⟨hcmd, hex⟩
      · have hm : c1.topic = none ∨ c1.message = none := by
          have hf := pub_post_check_fields c1
          rw [← hpost] at hmiss
          rcases hmiss with hm | hm
          · exact Or.inl ((hf.2.2.1).symm.trans hm)
          · exact Or.inr ((hf.2.2.2).symm.trans hm)
        rw [← hpost]
        exact pub_post_check_pub hcmd hm
      · rw [← hpost, pub_post_check_help hcmd]
        exact ⟨hcmd, hex⟩
  · intro args ctx evs h hcase
    rw [sub_context_init_def] at h
    rcases hq : sub_apply {} (getopt_stream sub_long_opts args) with ⟨r1, evs1⟩
    rw [hq] at h
    injection h with h1 h2
    dsimp only at h1 h2
    subst h2
    rcases Option.map_eq_some'.mp h1 with ⟨c1, hr1, hpost⟩
    rcases hcase with hmem | ⟨hnoH, hmiss⟩
    · rcases sub_apply_qmark _ _ _ _ hq hmem with ⟨c2, hr2, hcmd, hex⟩
      rw [hr1] at hr2
      injection hr2 with hr2
      subst hr2
      rw [← hpost, sub_post_check_help hcmd]
      exact ⟨hcmd, hex⟩
    · subst hr1
      rcases sub_apply_no_H _ _ _ _ hq hnoH with ⟨hcmd, hex⟩ | ⟨hcmd, hex⟩
      · have hm : c1.topic = none := by
          have hf := sub_post_check_fields c1
          rw [← hpost] at hmiss
          exact (hf.2.2).symm.trans hmiss
        rw [← hpost]
        exact sub_post_check_sub hcmd hm
      · rw [← hpost, sub_post_check_help hcmd]
        exact ⟨hcmd, hex⟩

/-- C1, witness: the amended theorem applied to the publisher vector
[-Z] (unknown flag) and to the empty subscriber vector (missing
topic). -/
theorem C1_usage_on_error_witness :
    ((⟨none, none, none, "localhost", 1883, none, none, false, .showHelp, 1⟩ :
        PubContext).cmd = .showHelp ∧
     (⟨none, none, none, "localhost", 1883, none, none, false, .showHelp, 1⟩ :
        PubContext).exit_code = 1) ∧
    ((⟨none, none, none, "localhost", 1883, none, false, .showHelp, 1⟩ :
        SubContext).cmd = .showHelp ∧
     (⟨none, none, none, "localhost", 1883, none, false, .showHelp, 1⟩ :
        SubContext).exit_code = 1) :=
  ⟨C1_usage_on_error.1 ["-Z"]
      ⟨none, none, none, "localhost", 1883, none, none, false, .showHelp, 1⟩
      [('?', none)] (by decide) (Or.inl (by decide)),
   C1_usage_on_error.2 []
      ⟨none, none, none, "localhost", 1883, none, false, .showHelp, 1⟩
      [] (by decide) (Or.inr ⟨by decide, by decide⟩)⟩

/-- C10: in both tools, whenever the consumed option events contain an
explicit help request (-H or --help), the program prints only the
usage text, performs no mosquitto library call, and exits with
status 0. -/
theorem C10_help_success :
    (∀ (args : List String) (o : PubOracle),
       ('H', (none : Option String)) ∈ (pub_context_init args).2 →
       pub_main args o = some ([MqttEv.usage], 0))
  ∧ (∀ (args : List String) (o : SubOracle) (fuel : Nat),
       ('H', (none : Option String)) ∈ (sub_context_init args).2 →
       sub_main args o fuel = some ([MqttEv.usage], 0)) := by
  constructor
  · intro args o hmem
    rw [pub_context_init_def] at hmem
    rcases hq : pub_apply {} (getopt_stream pub_long_opts args) with ⟨r1, evs1⟩
    rw [hq] at hmem
    dsimp only at hmem
    rcases pub_apply_help _ _ _ _ hq hmem with ⟨c1, hr1, hcmd, hex⟩
    have hinit : (pub_context_init args).1 = some (pub_post_check c1) := by
      rw [pub_context_init_def, hq, hr1]
      rfl
    rw [pub_main, hinit, pub_post_check_help hcmd]
    dsimp only
    rw [hcmd]
    dsimp only
    rw [hex]
  · intro args o fuel hmem
    rw [sub_context_init_def] at hmem
    rcases hq : sub_apply {} (getopt_stream sub_long_opts args) with ⟨r1, evs1⟩
    rw [hq] at hmem
    dsimp only at hmem
    rcases sub_apply_help _ _ _ _ hq hmem with ⟨c1, hr1, hcmd, hex⟩
    have hinit : (sub_context_init args).1 = some (sub_post_check c1) := by
      rw [sub_context_init_def, hq, hr1]
      rfl
    rw [sub_main, hinit, sub_post_check_help hcmd]
    dsimp only
    rw [hcmd]
    dsimp only
    rw [hex]

/-- C10, witness: the theorem applied to the publisher vector [-H] and
the subscriber vector [--help]. -/
theorem C10_help_success_witness :
    pub_main ["-H"] {} = some ([MqttEv.usage], 0) ∧
    sub_main ["--help"] {} 0 = some ([MqttEv.usage], 0) :=
  ⟨C10_help_success.1 ["-H"] {} (by decide),
   C10_help_success.2 ["--help"] {} 0 (by decide)⟩

theorem takeWhile_all_of_ne_zero :
    ∀ {l : List Nat}, (∀ b ∈ l, b ≠ 0) → l.takeWhile (fun b => b != 0) = l := by
  intro l
  induction l with
  | nil => intro _; rfl
  | cons a rest ih =>
    intro hall
    have ha : a ≠ 0 := hall a (by simp)
    have : (a != 0) = true := by simpa using ha
    simp [List.takeWhile, this, ih (fun b hb => hall b (by simp [hb]))]

/-- C8, amended: for every delivered message whose payloadlen field
equals the length of its payload array, the printed block contains the
message identifier, the topic, the retained flag; a non-positive
payload length is rendered as the marker "<empty>", and a positive
length n is rendered as the first n bytes provided the payload contains
no NUL byte (printf "%.*s" stops at a NUL, see the counterexample). -/
theorem C8_message_block :
    ∀ m : MosqMessage, m.payloadlen = Int.ofNat m.payload.length →
      (mqtt_on_message m).midLine = m.mid ∧
      (mqtt_on_message m).topicLine = m.topic ∧
      (mqtt_on_message m).retainedLine = (if m.retain then "yes" else "no") ∧
      (m.payloadlen ≤ 0 → (mqtt_on_message m).payloadLine = ascii "<empty>") ∧
      (0 < m.payloadlen → (∀ b ∈ m.payload, b ≠ 0) →
        (mqtt_on_message m).payloadLine = m.payload) := by
  intro m h
  refine ⟨rfl, rfl, rfl, ?_, ?_⟩
  · intro hle
    rw [mqtt_on_message]
    simp only []
    rw [if_neg (by omega)]
  · intro hpos hall
    rw [mqtt_on_message]
    simp only []
    rw [if_pos hpos]
    rw [printf_prec, h]
    rw [show (Int.ofNat m.payload.length).toNat = m.payload.length from rfl, List.take_length]
    exact takeWhile_all_of_ne_zero hall

/-- C8, witness: the amended theorem applied to a concrete two-byte
message. -/
theorem C8_message_block_witness :
    (mqtt_on_message ⟨2, "x", [104, 105], 2, true⟩).midLine = 2 ∧
    (mqtt_on_message ⟨2, "x", [104, 105], 2, true⟩).topicLine = "x" ∧
    (mqtt_on_message ⟨2, "x", [104, 105], 2, true⟩).retainedLine = (if true then "yes" else "no") ∧
    ((2 : Int) ≤ 0 → (mqtt_on_message ⟨2, "x", [104, 105], 2, true⟩).payloadLine = ascii "<empty>") ∧
    ((0 : Int) < 2 → (∀ b ∈ [104, 105], b ≠ 0) →
      (mqtt_on_message ⟨2, "x", [104, 105], 2, true⟩).payloadLine = [104, 105]) :=
  C8_message_block ⟨2, "x", [104, 105], 2, true⟩ (by decide)

theorem replicate_filter_unsub (n : Nat) (a b : Int) :
    (List.replicate n (MqttEv.loopStep a b)).filter isUnsubEv = [] := by
  induction n with
  | zero => rfl
  | succ k ih => simp [List.replicate_succ, List.filter_cons, isUnsubEv, ih]

/-- C7: in every subscriber run that reaches the receive loop (all
prior library calls succeed) and whose loop terminates, the trace
contains exactly one mosquitto_unsubscribe call, and the final exit
code does not depend on the unsubscribe result. -/
theorem C7_unsubscribe_once :
    ∀ (ctx : SubContext) (o : SubOracle) (u1 u2 : Int) (fuel : Nat) (p : Int × Nat),
      o.libInit = 0 → o.newOk = true → o.pwSet = 0 → o.connect = 0 → o.subscribe = 0 →
      recv_loop o.shutdown o.loopRes fuel 0 0 = some p →
      ((mqtt_sub ctx o fuel).map fun r => unsub_count r.1) = some 1 ∧
      (mqtt_sub ctx { o with unsub := u1 } fuel).map Prod.snd =
        (mqtt_sub ctx { o with unsub := u2 } fuel).map Prod.snd := by
  intro ctx o u1 u2 fuel p h1 h2 h3 h4 h5 hloop
  obtain ⟨rc, n⟩ := p
  constructor
  · rw [mqtt_sub]
    simp only [h1, h2, h3, h4, h5, hloop]
    simp [unsub_count, List.filter_append, replicate_filter_unsub, isUnsubEv,
      List.filter_cons]
  · rfl

/-- C7, witness: the theorem applied to a concrete run that shuts down
before the first loop iteration, with two different unsubscribe
results. -/
theorem C7_unsubscribe_once_witness :
    ((mqtt_sub ⟨none, none, none, "localhost", 1883, some "test", false, .sub, 0⟩
        ⟨0, true, 0, 0, 0, fun _ => 0, fun _ => true, 0, 0⟩ 1).map fun r => unsub_count r.1) =
      some 1 ∧
    (mqtt_sub ⟨none, none, none, "localhost", 1883, some "test", false, .sub, 0⟩
        { (⟨0, true, 0, 0, 0, fun _ => 0, fun _ => true, 0, 0⟩ : SubOracle) with unsub := 3 } 1).map
        Prod.snd =
      (mqtt_sub ⟨none, none, none, "localhost", 1883, some "test", false, .sub, 0⟩
        { (⟨0, true, 0, 0, 0, fun _ => 0, fun _ => true, 0, 0⟩ : SubOracle) with unsub := 9 } 1).map
        Prod.snd :=
  C7_unsubscribe_once ⟨none, none, none, "localhost", 1883, some "test", false, .sub, 0⟩
    ⟨0, true, 0, 0, 0, fun _ => 0, fun _ => true, 0, 0⟩ 3 9 1 (0, 0)
    rfl rfl rfl rfl rfl (by decide)

/-- Abstract well-formed publisher command line: one item per flag
occurrence, for the value flags and the retain flag of mqtt_pub.c
(help and unknown flags terminate parsing and are treated separately). -/
inductive POpt
  | oid (s : String)
  | ohost (s : String)
  | oport (s : String)
  | ouser (s : String)
  | opass (s : String)
  | oretain
  | otopic (s : String)
  | omsg (s : String)
deriving DecidableEq, Repr

/-- Abstract well-formed subscriber command line (no message flag). -/
inductive SOpt
  | oid (s : String)
  | ohost (s : String)
  | oport (s : String)
  | ouser (s : String)
  | opass (s : String)
  | oretain
  | otopic (s : String)
deriving DecidableEq, Repr

/-- The argv tokens of one publisher flag occurrence. -/
def pubTokens : POpt → List String
  | .oid s => ["-i", s]
  | .ohost s => ["-h", s]
  | .oport s => ["-p", s]
  | .ouser s => ["-u", s]
  | .opass s => ["-P", s]
  | .oretain => ["-r"]
  | .otopic s => ["-t", s]
  | .omsg s => ["-m", s]

/-- The argv tokens of one subscriber flag occurrence. -/
def subTokens : SOpt → List String
  | .oid s => ["-i", s]
  | .ohost s => ["-h", s]
  | .oport s => ["-p", s]
  | .ouser s => ["-u", s]
  | .opass s => ["-P", s]
  | .oretain => ["-r"]
  | .otopic s => ["-t", s]

/-- The option event getopt produces for one publisher flag occurrence. -/
def pubEvOf : POpt → GetoptEv
  | .oid s => ('i', some s)
  | .ohost s => ('h', some s)
  | .oport s => ('p', some s)
  | .ouser s => ('u', some s)
  | .opass s => ('P', some s)
  | .oretain => ('r', none)
  | .otopic s => ('t', some s)
  | .omsg s => ('m', some s)

/-- The option event getopt produces for one subscriber flag occurrence. -/
def subEvOf : SOpt → GetoptEv
  | .oid s => ('i', some s)
  | .ohost s => ('h', some s)
  | .oport s => ('p', some s)
  | .ouser s => ('u', some s)
  | .opass s => ('P', some s)
  | .oretain => ('r', none)
  | .otopic s => ('t', some s)

/-- The argv of a publisher flag list. -/
def pubArgsOf : List POpt → List String
  | [] => []
  | o :: rest => pubTokens o ++ pubArgsOf rest

/-- The argv of a subscriber flag list. -/
def subArgsOf : List SOpt → List String
  | [] => []
  | o :: rest => subTokens o ++ subArgsOf rest

/-- Value of a publisher flag occurrence when it is the client-id flag. -/
def pidOf : POpt → Option String
  | .oid s => some s
  | _ => none

def phostOf : POpt → Option String
  | .ohost s => some s
  | _ => none

def pportOf : POpt → Option String
  | .oport s => some s
  | _ => none

def puserOf : POpt → Option String
  | .ouser s => some s
  | _ => none

def ppassOf : POpt → Option String
  | .opass s => some s
  | _ => none

def ptopicOf : POpt → Option String
  | .otopic s => some s
  | _ => none

def pmsgOf : POpt → Option String
  | .omsg s => some s
  | _ => none

/-- Whether a publisher flag occurrence is the retain flag. -/
def isRetainP : POpt → Bool
  | .oretain => true
  | _ => false

def sidOf : SOpt → Option String
  | .oid s => some s
  | _ => none

def shostOf : SOpt → Option String
  | .ohost s => some s
  | _ => none

def sportOf : SOpt → Option String
  | .oport s => some s
  | _ => none

def suserOf : SOpt → Option String
  | .ouser s => some s
  | _ => none

def spassOf : SOpt → Option String
  | .opass s => some s
  | _ => none

def stopicOf : SOpt → Option String
  | .otopic s => some s
  | _ => none

/-- Whether a subscriber flag occurrence is the retain flag. -/
def isRetainS : SOpt → Bool
  | .oretain => true
  | _ => false

/-- The value of the last occurrence in the list on which `f` is
defined, if any. -/
def lastVal {α : Type} (f : α → Option String) : List α → Option String
  | [] => none
  | o :: rest =>
    match lastVal f rest with
    | some v => some v
    | none => f o

/-- Overwrite an optional field when a value is present. -/
def updO : Option String → Option String → Option String
  | some v, _ => some v
  | none, d => d

/-- Overwrite a string field when a value is present. -/
def updS : Option String → String → String
  | some v, _ => v
  | none, d => d

/-- Overwrite the port field, applying atoi, when a value is present. -/
def updPort : Option String → Int → Int
  | some v, _ => atoi v
  | none, d => d

/-- Model, following the spec wording, of the configuration the
publisher parser produces for a well-formed flag list: each field holds
the value of the last occurrence of its flag, or its default. -/
def pub_lastwins_model (opts : List POpt) : PubContext :=
  { id := lastVal pidOf opts
  , user := lastVal puserOf opts
  , password := lastVal ppassOf opts
  , host := updS (lastVal phostOf opts) "localhost"
  , port := updPort (lastVal pportOf opts) 1883
  , topic := lastVal ptopicOf opts
  , message := lastVal pmsgOf opts
  , retain := opts.any isRetainP
  , cmd := .pub
  , exit_code := 0 }

/-- Model, following the spec wording, of the configuration the
subscriber parser produces for a well-formed flag list. -/
def sub_lastwins_model (opts : List SOpt) : SubContext :=
  { id := lastVal sidOf opts
  , user := lastVal suserOf opts
  , password := lastVal spassOf opts
  , host := updS (lastVal shostOf opts) "localhost"
  , port := updPort (lastVal sportOf opts) 1883
  , topic := lastVal stopicOf opts
  , retain := opts.any isRetainS
  , cmd := .sub
  , exit_code := 0 }

theorem pub_stream_oid (s : String) (rest : List String) :
    getopt_stream pub_long_opts ("-i" :: s :: rest) =
      ('i', some s) :: getopt_stream pub_long_opts rest := rfl

theorem pub_stream_ohost (s : String) (rest : List String) :
    getopt_stream pub_long_opts ("-h" :: s :: rest) =
      ('h', some s) :: getopt_stream pub_long_opts rest := rfl

theorem pub_stream_oport (s : String) (rest : List String) :
    getopt_stream pub_long_opts ("-p" :: s :: rest) =
      ('p', some s) :: getopt_stream pub_long_opts rest := rfl

theorem pub_stream_ouser (s : String) (rest : List String) :
    getopt_stream pub_long_opts ("-u" :: s :: rest) =
      ('u', some s) :: getopt_stream pub_long_opts rest := rfl

theorem pub_stream_opass (s : String) (rest : List String) :
    getopt_stream pub_long_opts ("-P" :: s :: rest) =
      ('P', some s) :: getopt_stream pub_long_opts rest := rfl

theorem pub_stream_oretain (rest : List String) :
    getopt_stream pub_long_opts ("-r" :: rest) =
      ('r', none) :: getopt_stream pub_long_opts rest := rfl

theorem pub_stream_otopic (s : String) (rest : List String) :
    getopt_stream pub_long_opts ("-t" :: s :: rest) =
      ('t', some s) :: getopt_stream pub_long_opts rest := rfl

theorem pub_stream_omsg (s : String) (rest : List String) :
    getopt_stream pub_long_opts ("-m" :: s :: rest) =
      ('m', some s) :: getopt_stream pub_long_opts rest := rfl

theorem sub_stream_oid (s : String) (rest : List String) :
    getopt_stream sub_long_opts ("-i" :: s :: rest) =
      ('i', some s) :: getopt_stream sub_long_opts rest := rfl

theorem sub_stream_ohost (s : String) (rest : List String) :
    getopt_stream sub_long_opts ("-h" :: s :: rest) =
      ('h', some s) :: getopt_stream sub_long_opts rest := rfl

theorem sub_stream_oport (s : String) (rest : List String) :
    getopt_stream sub_long_opts ("-p" :: s :: rest) =
      ('p', some s) :: getopt_stream sub_long_opts rest := rfl

theorem sub_stream_ouser (s : String) (rest : List String) :
    getopt_stream sub_long_opts ("-u" :: s :: rest) =
      ('u', some s) :: getopt_stream sub_long_opts rest := rfl

theorem sub_stream_opass (s : String) (rest : List String) :
    getopt_stream sub_long_opts ("-P" :: s :: rest) =
      ('P', some s) :: getopt_stream sub_long_opts rest := rfl

theorem sub_stream_oretain (rest : List String) :
    getopt_stream sub_long_opts ("-r" :: rest) =
      ('r', none) :: getopt_stream sub_long_opts rest := rfl

theorem sub_stream_otopic (s : String) (rest : List String) :
    getopt_stream sub_long_opts ("-t" :: s :: rest) =
      ('t', some s) :: getopt_stream sub_long_opts rest := rfl

theorem pub_stream_argsOf : ∀ opts : List POpt,
    getopt_stream pub_long_opts (pubArgsOf opts) = opts.map pubEvOf := by
  intro opts
  induction opts with
  | nil => rfl
  | cons o rest ih =>
    cases o <;>
      simp [pubArgsOf, pubTokens, pubEvOf, ih,
        pub_stream_oid, pub_stream_ohost, pub_stream_oport, pub_stream_ouser,
        pub_stream_opass, pub_stream_oretain, pub_stream_otopic, pub_stream_omsg]

theorem sub_stream_argsOf : ∀ opts : List SOpt,
    getopt_stream sub_long_opts (subArgsOf opts) = opts.map subEvOf := by
  intro opts
  induction opts with
  | nil => rfl
  | cons o rest ih =>
    cases o <;>
      simp [subArgsOf, subTokens, subEvOf, ih,
        sub_stream_oid, sub_stream_ohost, sub_stream_oport, sub_stream_ouser,
        sub_stream_opass, sub_stream_oretain, sub_stream_otopic]

/-- The switch action of mqtt_pub.c on one well-formed flag occurrence. -/
def pubApplyO (ctx : PubContext) : POpt → PubContext
  | .oid s => {ctx with id := some s}
  | .ohost s => {ctx with host := s}
  | .oport s => {ctx with port := atoi s}
  | .ouser s => {ctx with user := some s}
  | .opass s => {ctx with password := some s}
  | .oretain => {ctx with retain := true}
  | .otopic s => {ctx with topic := some s}
  | .omsg s => {ctx with message := some s}

/-- The switch action of mqtt_sub.c on one well-formed flag occurrence. -/
def subApplyO (ctx : SubContext) : SOpt → SubContext
  | .oid s => {ctx with id := some s}
  | .ohost s => {ctx with host := s}
  | .oport s => {ctx with port := atoi s}
  | .ouser s => {ctx with user := some s}
  | .opass s => {ctx with password := some s}
  | .oretain => {ctx with retain := true}
  | .otopic s => {ctx with topic := some s}

/-- Folding the publisher switch over a well-formed flag list. -/
def pubFold : PubContext → List POpt → PubContext
  | ctx, [] => ctx
  | ctx, o :: rest => pubFold (pubApplyO ctx o) rest

/-- Folding the subscriber switch over a well-formed flag list. -/
def subFold : SubContext → List SOpt → SubContext
  | ctx, [] => ctx
  | ctx, o :: rest => subFold (subApplyO ctx o) rest

theorem pub_step_evOf (ctx : PubContext) (o : POpt) :
    pub_step ctx (pubEvOf o) = .cont (pubApplyO ctx o) := by
  cases o <;> rfl

theorem sub_step_evOf (ctx : SubContext) (o : SOpt) :
    sub_step ctx (subEvOf o) = .cont (subApplyO ctx o) := by
  cases o <;> rfl

theorem pub_apply_map_evOf : ∀ (opts : List POpt) (ctx : PubContext),
    pub_apply ctx (opts.map pubEvOf) = (some (pubFold ctx opts), opts.map pubEvOf) := by
  intro opts
  induction opts with
  | nil => intro ctx; rfl
  | cons o rest ih =>
    intro ctx
    rw [List.map_cons, pub_apply]
    simp only [pub_step_evOf]
    rw [ih (pubApplyO ctx o)]
    rfl

theorem sub_apply_map_evOf : ∀ (opts : List SOpt) (ctx : SubContext),
    sub_apply ctx (opts.map subEvOf) = (some (subFold ctx opts), opts.map subEvOf) := by
  intro opts
  induction opts with
  | nil => intro ctx; rfl
  | cons o rest ih =>
    intro ctx
    rw [List.map_cons, sub_apply]
    simp only [sub_step_evOf]
    rw [ih (subApplyO ctx o)]
    rfl

theorem updO_none (x : Option String) : updO x none = x := by cases x <;> rfl

theorem lastVal_cons {α : Type} (f : α → Option String) (o : α) (rest : List α) :
    lastVal f (o :: rest) =
      match lastVal f rest with
      | some v => some v
      | none => f o := rfl

theorem updO_lastVal {α : Type} (f : α → Option String) (o : α) (rest : List α)
    (d : Option String) :
    updO (lastVal f (o :: rest)) d = updO (lastVal f rest) (updO (f o) d) := by
  rw [lastVal_cons]
  cases hl : lastVal f rest <;> cases hf : f o <;> simp [updO]

theorem updS_lastVal {α : Type} (f : α → Option String) (o : α) (rest : List α)
    (d : String) :
    updS (lastVal f (o :: rest)) d = updS (lastVal f rest) (updS (f o) d) := by
  rw [lastVal_cons]
  cases hl : lastVal f rest <;> cases hf : f o <;> simp [updS, updO]

theorem updPort_lastVal {α : Type} (f : α → Option String) (o : α) (rest : List α)
    (d : Int) :
    updPort (lastVal f (o :: rest)) d = updPort (lastVal f rest) (updPort (f o) d) := by
  rw [lastVal_cons]
  cases hl : lastVal f rest <;> cases hf : f o <;> simp [updPort, updO]

theorem pubApplyO_fields (ctx : PubContext) (o : POpt) :
    pubApplyO ctx o =
      { id := updO (pidOf o) ctx.id
      , user := updO (puserOf o) ctx.user
      , password := updO (ppassOf o) ctx.password
      , host := updS (phostOf o) ctx.host
      , port := updPort (pportOf o) ctx.port
      , topic := updO (ptopicOf o) ctx.topic
      , message := updO (pmsgOf o) ctx.message
      , retain := ctx.retain || isRetainP o
      , cmd := ctx.cmd
      , exit_code := ctx.exit_code } := by
  cases o <;>
    simp [pubApplyO, pidOf, puserOf, ppassOf, phostOf, pportOf, ptopicOf, pmsgOf,
      isRetainP, updO, updS, updPort]

theorem subApplyO_fields (ctx : SubContext) (o : SOpt) :
    subApplyO ctx o =
      { id := updO (sidOf o) ctx.id
      , user := updO (suserOf o) ctx.user
      , password := updO (spassOf o) ctx.password
      , host := updS (shostOf o) ctx.host
      , port := updPort (sportOf o) ctx.port
      , topic := updO (stopicOf o) ctx.topic
      , retain := ctx.retain || isRetainS o
      , cmd := ctx.cmd
      , exit_code := ctx.exit_code } := by
  cases o <;>
    simp [subApplyO, sidOf, suserOf, spassOf, shostOf, sportOf, stopicOf,
      isRetainS, updO, updS, updPort]

theorem pubFold_fields : ∀ (opts : List POpt) (ctx : PubContext),
    pubFold ctx opts =
      { id := updO (lastVal pidOf opts) ctx.id
      , user := updO (lastVal puserOf opts) ctx.user
      , password := updO (lastVal ppassOf opts) ctx.password
      , host := updS (lastVal phostOf opts) ctx.host
      , port := updPort (lastVal pportOf opts) ctx.port
      , topic := updO (lastVal ptopicOf opts) ctx.topic
      , message := updO (lastVal pmsgOf opts) ctx.message
      , retain := ctx.retain || opts.any isRetainP
      , cmd := ctx.cmd
      , exit_code := ctx.exit_code } := by
  intro opts
  induction opts with
  | nil =>
    intro ctx
    simp [pubFold, lastVal, updO, updS, updPort]
  | cons o rest ih =>
    intro ctx
    rw [pubFold, ih (pubApplyO ctx o), pubApplyO_fields]
    simp only [updO_lastVal, updS_lastVal, updPort_lastVal, List.any_cons]
    simp [Bool.or_assoc]

theorem subFold_fields : ∀ (opts : List SOpt) (ctx : SubContext),
    subFold ctx opts =
      { id := updO (lastVal sidOf opts) ctx.id
      , user := updO (lastVal suserOf opts) ctx.user
      , password := updO (lastVal spassOf opts) ctx.password
      , host := updS (lastVal shostOf opts) ctx.host
      , port := updPort (lastVal sportOf opts) ctx.port
      , topic := updO (lastVal stopicOf opts) ctx.topic
      , retain := ctx.retain || opts.any isRetainS
      , cmd := ctx.cmd
      , exit_code := ctx.exit_code } := by
  intro opts
  induction opts with
  | nil =>
    intro ctx
    simp [subFold, lastVal, updO, updS, updPort]
  | cons o rest ih =>
    intro ctx
    rw [subFold, ih (subApplyO ctx o), subApplyO_fields]
    simp only [updO_lastVal, updS_lastVal, updPort_lastVal, List.any_cons]
    simp [Bool.or_assoc]

theorem pub_context_init_argsOf (opts : List POpt) :
    pub_context_init (pubArgsOf opts) =
      (some (pub_post_check (pub_lastwins_model opts)), opts.map pubEvOf) := by
  rw [pub_context_init_def, pub_stream_argsOf, pub_apply_map_evOf]
  dsimp only
  rw [pubFold_fields]
  rw [pub_lastwins_model]
  simp [updO_none]

theorem sub_context_init_argsOf (opts : List SOpt) :
    sub_context_init (subArgsOf opts) =
      (some (sub_post_check (sub_lastwins_model opts)), opts.map subEvOf) := by
  rw [sub_context_init_def, sub_stream_argsOf, sub_apply_map_evOf]
  dsimp only
  rw [subFold_fields]
  rw [sub_lastwins_model]
  simp [updO_none]

theorem lastVal_none_of_filterMap_nil {α : Type} (f : α → Option String) :
    ∀ l : List α, l.filterMap f = [] → lastVal f l = none := by
  intro l
  induction l with
  | nil => intro _; rfl
  | cons o rest ih =>
    intro h
    rw [List.filterMap_cons] at h
    cases hf : f o with
    | none =>
      rw [hf] at h
      rw [lastVal_cons, ih h]
      exact hf
    | some v =>
      rw [hf] at h
      exact absurd h (by simp)

theorem lastVal_eq_head_of_le_one {α : Type} (f : α → Option String) :
    ∀ l : List α, (l.filterMap f).length ≤ 1 →
      lastVal f l = (l.filterMap f).head? := by
  intro l
  induction l with
  | nil => intro _; rfl
  | cons o rest ih =>
    intro h
    rw [List.filterMap_cons] at h ⊢
    cases hf : f o with
    | none =>
      rw [hf] at h
      dsimp only at h ⊢
      rw [lastVal_cons, ← ih h]
      cases hl : lastVal f rest <;> simp [hf]
    | some v =>
      rw [hf] at h
      dsimp only at h ⊢
      have hnil : rest.filterMap f = [] := by
        rw [List.length_cons] at h
        have hlen : (rest.filterMap f).length = 0 := by omega
        exact List.length_eq_zero.mp hlen
      rw [lastVal_cons, lastVal_none_of_filterMap_nil f rest hnil]
      simp [hf]

theorem perm_eq_of_length_le_one {α : Type} {l l2 : List α}
    (h : l.Perm l2) (hle : l.length ≤ 1) : l = l2 := by
  cases l with
  | nil =>
    have : l2.length = 0 := by rw [← h.length_eq]; rfl
    rw [List.length_eq_zero.mp this]
  | cons a rest =>
    cases rest with
    | nil =>
      have h2 : l2.length = 1 := by rw [← h.length_eq]; rfl
      rcases List.length_eq_one.mp h2 with ⟨b, hb⟩
      have ha : a ∈ l2 := h.mem_iff.mp (by simp)
      rw [hb] at ha
      simp at ha
      rw [hb, ha]
    | cons b rest2 => simp at hle

theorem lastVal_perm {α : Type} (f : α → Option String) {l l2 : List α}
    (h : l.Perm l2) (hle : (l.filterMap f).length ≤ 1) :
    lastVal f l = lastVal f l2 := by
  have hp := h.filterMap f
  have heq := perm_eq_of_length_le_one hp hle
  have hle2 : (l2.filterMap f).length ≤ 1 := by rw [← heq]; exact hle
  rw [lastVal_eq_head_of_le_one f l hle, lastVal_eq_head_of_le_one f l2 hle2, heq]

theorem any_perm {α : Type} (p : α → Bool) {l l2 : List α} (h : l.Perm l2) :
    l.any p = l2.any p := by
  induction h with
  | nil => rfl
  | cons a _ ih => simp [List.any_cons, ih]
  | swap a b t => cases hp : p a <;> cases hq : p b <;> simp [List.any_cons, hp, hq]
  | trans _ _ ih1 ih2 => exact ih1.trans ih2

/-- Each publisher flag occurs at most once in the flag list. -/
abbrev pubAtMostOnce (opts : List POpt) : Prop :=
  (opts.filterMap pidOf).length ≤ 1 ∧ (opts.filterMap phostOf).length ≤ 1 ∧
  (opts.filterMap pportOf).length ≤ 1 ∧ (opts.filterMap puserOf).length ≤ 1 ∧
  (opts.filterMap ppassOf).length ≤ 1 ∧ (opts.filterMap ptopicOf).length ≤ 1 ∧
  (opts.filterMap pmsgOf).length ≤ 1

/-- Each subscriber flag occurs at most once in the flag list. -/
abbrev subAtMostOnce (opts : List SOpt) : Prop :=
  (opts.filterMap sidOf).length ≤ 1 ∧ (opts.filterMap shostOf).length ≤ 1 ∧
  (opts.filterMap sportOf).length ≤ 1 ∧ (opts.filterMap suserOf).length ≤ 1 ∧
  (opts.filterMap spassOf).length ≤ 1 ∧ (opts.filterMap stopicOf).length ≤ 1

theorem pub_model_perm {opts opts2 : List POpt} (h : opts.Perm opts2)
    (hm : pubAtMostOnce opts) :
    pub_lastwins_model opts = pub_lastwins_model opts2 := by
  obtain ⟨h1, h2, h3, h4, h5, h6, h7⟩ := hm
  rw [pub_lastwins_model, pub_lastwins_model,
    lastVal_perm pidOf h h1, lastVal_perm phostOf h h2, lastVal_perm pportOf h h3,
    lastVal_perm puserOf h h4, lastVal_perm ppassOf h h5, lastVal_perm ptopicOf h h6,
    lastVal_perm pmsgOf h h7, any_perm isRetainP h]

theorem sub_model_perm {opts opts2 : List SOpt} (h : opts.Perm opts2)
    (hm : subAtMostOnce opts) :
    sub_lastwins_model opts = sub_lastwins_model opts2 := by
  obtain ⟨h1, h2, h3, h4, h5, h6⟩ := hm
  rw [sub_lastwins_model, sub_lastwins_model,
    lastVal_perm sidOf h h1, lastVal_perm shostOf h h2, lastVal_perm sportOf h h3,
    lastVal_perm suserOf h h4, lastVal_perm spassOf h h5, lastVal_perm stopicOf h h6,
    any_perm isRetainS h]

/-- C5, amended: over well-formed command lines built from the value
flags and the retain flag, the parsed configuration of each tool equals
the last-write-wins model (each field records the last occurrence of
its flag), and when every flag occurs at most once the configuration is
invariant under permuting the flag occurrences.  The restriction to
these flags is forced: a help or unknown flag terminates parsing, so
order-independence fails when one is present (see the counterexample). -/
theorem C5_last_write_wins :
    (∀ opts : List POpt,
       (pub_context_init (pubArgsOf opts)).1 =
         some (pub_post_check (pub_lastwins_model opts)))
  ∧ (∀ opts opts2 : List POpt, opts.Perm opts2 → pubAtMostOnce opts →
       (pub_context_init (pubArgsOf opts)).1 = (pub_context_init (pubArgsOf opts2)).1)
  ∧ (∀ opts : List SOpt,
       (sub_context_init (subArgsOf opts)).1 =
         some (sub_post_check (sub_lastwins_model opts)))
  ∧ (∀ opts opts2 : List SOpt, opts.Perm opts2 → subAtMostOnce opts →
       (sub_context_init (subArgsOf opts)).1 = (sub_context_init (subArgsOf opts2)).1) := by
  refine ⟨?_, ?_, ?_, ?_⟩
  · intro opts
    rw [pub_context_init_argsOf]
  · intro opts opts2 h hm
    rw [pub_context_init_argsOf, pub_context_init_argsOf, pub_model_perm h hm]
  · intro opts
    rw [sub_context_init_argsOf]
  · intro opts opts2 h hm
    rw [sub_context_init_argsOf, sub_context_init_argsOf, sub_model_perm h hm]

/-- C5, witness: the amended theorem applied to the two orders of the
concrete flag lists [-t a, -r] and [-r, -t a], for both tools. -/
theorem C5_last_write_wins_witness :
    (pub_context_init (pubArgsOf [.otopic "a", .oretain])).1 =
      (pub_context_init (pubArgsOf [.oretain, .otopic "a"])).1 ∧
    (sub_context_init (subArgsOf [.otopic "a", .oretain])).1 =
      (sub_context_init (subArgsOf [.oretain, .otopic "a"])).1 :=
  ⟨C5_last_write_wins.2.1 [.otopic "a", .oretain] [.oretain, .otopic "a"]
      (by decide) (by decide),
   C5_last_write_wins.2.2.2 [.otopic "a", .oretain] [.oretain, .otopic "a"]
      (by decide) (by decide)⟩

end MosquittoExample
